import Mathlib

/-!
Verification of the `linear-pr` CLI against its natural-language
specification.

The development shallowly embeds the string-normalization functions of
`src/utils.ts`, the branch-reconciliation and placeholder-commit logic of
`src/github.ts`, the PR-orchestration flow of `pr.js`, and the OAuth
loopback callback handler of `src/linear.ts` as executable Lean
definitions, and proves (or refutes) the frozen claims about them.

Strings are modelled over `List Char`; JavaScript `toLowerCase` /
`toUpperCase` are modelled on the ASCII range (the inputs the claims are
about are ASCII), and JavaScript regular expressions are modelled by
explicit character-class predicates and leftmost-match searches.
-/

/-! ## Character classes (models of the JS regex character classes) -/

/-- `[A-Z]`. -/
def isUpperA (c : Char) : Bool := 65 ≤ c.toNat && c.toNat ≤ 90

/-- `[a-z]`. -/
def isLowerA (c : Char) : Bool := 97 ≤ c.toNat && c.toNat ≤ 122

/-- `\d` = `[0-9]`. -/
def isDigitA (c : Char) : Bool := 48 ≤ c.toNat && c.toNat ≤ 57

/-- `[A-Za-z]`, i.e. `[a-z]` under the `i` regex flag. -/
def isLetterA (c : Char) : Bool := isUpperA c || isLowerA c

/-- `\w` = `[A-Za-z0-9_]`. -/
def isWordChar (c : Char) : Bool := isLetterA c || isDigitA c || c == '_'

/-- JS `\s` (ASCII part: space, tab, LF, VT, FF, CR; plus NBSP). -/
def isJsSpace (c : Char) : Bool :=
  c == ' ' || (9 ≤ c.toNat && c.toNat ≤ 13) || c.toNat == 160

/-- The scope alphabet `[a-z0-9-]` of `formatScope` / `validateScope`. -/
def isScopeChar (c : Char) : Bool := isLowerA c || isDigitA c || c == '-'

/-- Model of JS `String.prototype.toLowerCase` on one ASCII character. -/
def jsToLower (c : Char) : Char :=
  if isUpperA c then Char.ofNat (c.toNat + 32) else c

/-- Model of JS `String.prototype.toUpperCase` on one ASCII character. -/
def jsToUpper (c : Char) : Char :=
  if isLowerA c then Char.ofNat (c.toNat - 32) else c

/-- JS `s.toLowerCase()`. -/
def jsLowerStr (s : String) : String := String.mk (s.data.map jsToLower)

/-- JS `s.toUpperCase()`. -/
def jsUpperStr (s : String) : String := String.mk (s.data.map jsToUpper)

/-! ## `utils.ts`: task-ID validation and extraction -/

/-- Full match of `^[A-Z]+-\d+$` with the `i` flag: one or more letters,
a hyphen, one or more digits, and nothing else.  Since `-` is not a
letter, the greedy letter run is forced, so no backtracking arises. -/
def matchesCanonical (l : List Char) : Bool :=
  let a := l.takeWhile isLetterA
  match l.dropWhile isLetterA with
  | '-' :: r2 => !a.isEmpty && !r2.isEmpty && r2.all isDigitA
  | _ => false

/-- `validateTaskId` from `src/utils.ts`: `/^[A-Z]+-\d+$/i.test(taskId)`. -/
def validateTaskId (taskId : String) : Bool := matchesCanonical taskId.data

/-- Attempt to match the regex `[a-z]+-\d+` (with `i`) anchored at the head
of `l`: a maximal letter run, a hyphen, a maximal digit run. -/
def tryMatch (l : List Char) : Option (List Char) :=
  let a := l.takeWhile isLetterA
  match l.dropWhile isLetterA with
  | '-' :: r2 =>
    let d := r2.takeWhile isDigitA
    if a.isEmpty || d.isEmpty then none else some (a ++ '-' :: d)
  | _ => none

/-- Leftmost match of `[a-z]+-\d+` (with `i`) anywhere in `l`, as JS
`String.prototype.match` finds it. -/
def findTaskId : List Char → Option (List Char)
  | [] => none
  | c :: rest =>
    match tryMatch (c :: rest) with
    | some m => some m
    | none => findTaskId rest

/-- The part of `l` after its last `'/'` (the last element of
`l.split('/')` in JS). -/
def lastSegment (l : List Char) : List Char :=
  (l.reverse.takeWhile (fun c => !(c == '/'))).reverse

/-- `extractTaskIdFromBranchName` from `src/utils.ts`:
`branchName.split('/').pop() || branchName`, then
`withoutPre.match(/([a-z]+-\d+)/i)`, uppercased on success, `null`
otherwise.  Note the `|| branchName` fallback: when the final segment is
empty (input empty or ending in `/`), the whole input is searched. -/
def extractTaskIdFromBranchName (branchName : String) : Option String :=
  let seg := lastSegment branchName.data
  let w := if seg.isEmpty then branchName.data else seg
  (findTaskId w).map (fun m => String.mk (m.map jsToUpper))

/-! ## `utils.ts`: branch-name synthesis -/

/-- Replace each maximal run of JS whitespace by a single `'-'`
(the `.replace(/\s+/g, '-')` step). -/
def spaceRunsToHyphens : List Char → List Char
  | [] => []
  | c :: rest =>
    if isJsSpace c then
      match rest with
      | [] => ['-']
      | d :: _ =>
        if isJsSpace d then spaceRunsToHyphens rest
        else '-' :: spaceRunsToHyphens rest
    else c :: spaceRunsToHyphens rest

/-- JS `String.prototype.trim` (strips whitespace at both ends). -/
def jsTrim (l : List Char) : List Char :=
  ((l.dropWhile isJsSpace).reverse.dropWhile isJsSpace).reverse

/-- The title-sanitization pipeline of `createBranchName`
(`src/utils.ts`): `toLowerCase`, delete chars outside `[\w\s-]`, replace
whitespace runs by `'-'`, then `trim` (which, running after whitespace
replacement, only ever sees a whitespace-free string). -/
def sanitizeTitle (l : List Char) : List Char :=
  jsTrim (spaceRunsToHyphens
    ((l.map jsToLower).filter (fun c => isWordChar c || isJsSpace c || c == '-')))

/-- JS `String.prototype.split` on a single separator character. -/
def splitOnCharL (sep : Char) : List Char → List (List Char)
  | [] => [[]]
  | c :: rest =>
    let r := splitOnCharL sep rest
    if c == sep then [] :: r
    else
      match r with
      | [] => [[c]]
      | h :: t => (c :: h) :: t

/-- `createBranchName` from `src/utils.ts`:
`feature/{taskId.split('-')[0].toLowerCase()}-{taskId.split('-')[1]}-{sanitizedTitle}`.
A missing second segment renders as the string `"undefined"`, as the JS
template literal would. -/
def createBranchName (taskId taskTitle : String) : String :=
  let parts := (splitOnCharL '-' taskId.data).map String.mk
  let team := jsLowerStr (parts.headD "")
  let num := parts.getD 1 "undefined"
  String.mk ("feature/".data ++ team.data ++ '-' :: num.data ++ '-' ::
    sanitizeTitle taskTitle.data)

/-! ## `utils.ts`: scope formatting and PR-title composition -/

/-- The `.replace(/[^a-z0-9-]/g, '-')` step of `formatScope`. -/
def toHyphen (c : Char) : Char := if isScopeChar c then c else '-'

/-- The hyphen-run collapse step of `formatScope` (regex replace of one
or more hyphens, globally, by a single hyphen). -/
def collapseH : List Char → List Char
  | [] => []
  | [c] => [c]
  | a :: b :: rest =>
    if a == '-' && b == '-' then collapseH (b :: rest)
    else a :: collapseH (b :: rest)

/-- The `.replace(/^-+|-+$/g, '')` step of `formatScope`: strip hyphens
from both ends. -/
def trimH (l : List Char) : List Char :=
  ((l.dropWhile (fun c => c == '-')).reverse.dropWhile (fun c => c == '-')).reverse

/-- `formatScope` from `src/utils.ts`: lowercase, replace every character
outside `[a-z0-9-]` by `'-'`, collapse hyphen runs, strip hyphens at the
ends. -/
def formatScope (input : String) : String :=
  String.mk (trimH (collapseH ((input.data.map jsToLower).map toHyphen)))

/-- `createPRTitle` from `src/utils.ts`:
the template literal `type(formattedModule): [formattedTaskId] description`
where `formattedModule = formatScope module` and
`formattedTaskId = taskId.toUpperCase()`. -/
def createPRTitle (type module taskId description : String) : String :=
  type ++ "(" ++ formatScope module ++ "): [" ++ jsUpperStr taskId ++ "] " ++
    description

/-! ## Definitions taken from the specification's words

These two definitions are NOT translations of the source; they follow the
spec's description verbatim, to be compared against the source-derived
definitions above (refinement checks for claims C4 and C5). -/

/-- Modelled from the spec: `extractTaskId(branchLike)` is described as
"strip everything before the last `/`; search the remainder for the first
substring matching `[A-Za-z]+-\d+`; if found, return it uppercased; else
return absence".  There is no fallback to the whole string. -/
def specExtractTaskId (branchName : String) : Option String :=
  (findTaskId (lastSegment branchName.data)).map
    (fun m => String.mk (m.map jsToUpper))

/-- Modelled from the spec: the title sanitization of
`synthesizeBranchName` is described as "lowercase the title, strip
everything except word characters/whitespace/hyphen, collapse internal
whitespace runs to single hyphens, trim edges" — i.e. whitespace at the
edges is removed rather than turned into hyphens. -/
def specSanitizeTitle (l : List Char) : List Char :=
  spaceRunsToHyphens (jsTrim
    ((l.map jsToLower).filter (fun c => isWordChar c || isJsSpace c || c == '-')))

/-! ## `pr.js` helpers -/

/-- `validateScope` from `pr.js`: `/^[a-z0-9-]+$/.test(scope)`. -/
def validateScope (scope : String) : Bool :=
  !scope.data.isEmpty && scope.data.all isScopeChar

/-- The branch-likeness test of `pr.js` (`createPullRequest`, line 49):
`taskId.includes('/') || (taskId.includes('-') && !taskId.match(/^[A-Z]+-\d+$/i))`. -/
def branchLike (taskId : String) : Bool :=
  taskId.data.contains '/' ||
    (taskId.data.contains '-' && !validateTaskId taskId)

/-- The shape every `formatScope` output has: only `[a-z0-9-]`, no leading
hyphen, no trailing hyphen, no two adjacent hyphens. -/
def noDupHyphen : List Char → Bool
  | [] => true
  | [_] => true
  | a :: b :: rest => !(a == '-' && b == '-') && noDupHyphen (b :: rest)

/-- Decidable statement of the scope grammar `[a-z0-9-]*` together with
the no-leading/trailing/duplicate-hyphen conditions. -/
def scopeShape (s : String) : Bool :=
  s.data.all isScopeChar &&
    !(s.data.head? == some '-') &&
    !(s.data.getLast? == some '-') &&
    noDupHyphen s.data

/-! ## Git model (for `src/github.ts`)

Local git state is modelled by the set of local branches, the set of
remote-tracking refs (`origin/X`) present locally, the set of branches on
the actual remote, a network flag, and the current branch.  Each git
command the code issues either fails (models `runGitCommand` throwing) or
returns an updated state. -/

inductive GitCmd where
  /-- `git branch --list` -/
  | branchList
  /-- `git checkout <b>` -/
  | checkout (b : String)
  /-- `git fetch` -/
  | fetchAll
  /-- `git branch -r` -/
  | branchRemoteList
  /-- `git checkout -b <b> origin/<b>` (track the remote branch) -/
  | checkoutTrack (b : String)
  /-- `git fetch origin <base>` -/
  | fetchBase (base : String)
  /-- `git branch <base> origin/<base>` -/
  | newLocalFromOrigin (base : String)
  /-- `git branch --show-current` -/
  | showCurrent
  /-- `git pull origin` -/
  | pullOrigin
  /-- `git fetch origin <base>:<base>` -/
  | fetchIntoLocal (base : String)
  /-- `git checkout -b <b> origin/<src>` -/
  | checkoutNewFromOrigin (b src : String)
  /-- `git checkout -b <b> <src>` -/
  | checkoutNewFromLocal (b src : String)
  /-- `git checkout -b <b>` -/
  | checkoutNewHead (b : String)
  deriving Repr, DecidableEq

structure GitState where
  localBranches : List String
  originRefs : List String
  remoteBranches : List String
  networkUp : Bool
  currentBranch : String
  deriving Repr, DecidableEq

/-- Union of two lists of branch names (first list's order kept). -/
def unionL (a b : List String) : List String :=
  a ++ b.filter (fun x => !a.contains x)

/-- Effect of one git command on the state; `none` models the command
exiting nonzero (and `runGitCommand` throwing). -/
def execGit : GitCmd → GitState → Option GitState
  | .branchList, st => some st
  | .checkout b, st =>
    if st.localBranches.contains b then some { st with currentBranch := b }
    else none
  | .fetchAll, st =>
    if st.networkUp then
      some { st with originRefs := unionL st.originRefs st.remoteBranches }
    else none
  | .branchRemoteList, st => some st
  | .checkoutTrack b, st =>
    if st.originRefs.contains b && !st.localBranches.contains b then
      some { st with localBranches := b :: st.localBranches, currentBranch := b }
    else none
  | .fetchBase base, st =>
    if st.networkUp && st.remoteBranches.contains base then
      some { st with originRefs := unionL st.originRefs [base] }
    else none
  | .newLocalFromOrigin base, st =>
    if st.originRefs.contains base && !st.localBranches.contains base then
      some { st with localBranches := base :: st.localBranches }
    else none
  | .showCurrent, st => some st
  | .pullOrigin, st => if st.networkUp then some st else none
  | .fetchIntoLocal base, st =>
    if st.networkUp && st.remoteBranches.contains base then some st else none
  | .checkoutNewFromOrigin b src, st =>
    if st.originRefs.contains src && !st.localBranches.contains b then
      some { st with localBranches := b :: st.localBranches, currentBranch := b }
    else none
  | .checkoutNewFromLocal b src, st =>
    if st.localBranches.contains src && !st.localBranches.contains b then
      some { st with localBranches := b :: st.localBranches, currentBranch := b }
    else none
  | .checkoutNewHead b, st =>
    if !st.localBranches.contains b then
      some { st with localBranches := b :: st.localBranches, currentBranch := b }
    else none

/-- Which ref a new branch was created from, when one was created. -/
inductive CreateSrc where
  /-- checked out tracking `origin/<branch>` (branch existed on remote) -/
  | remoteTrack
  /-- created from `origin/<base>` -/
  | originRef
  /-- created from the local `<base>` branch -/
  | localRef
  /-- created from the current `HEAD` -/
  | headRef
  deriving Repr, DecidableEq

structure BranchRun where
  trace : List GitCmd
  state : GitState
  ok : Bool
  createdFrom : Option CreateSrc
  deriving Repr, DecidableEq

/-- `branchExistsLocally` from `src/github.ts` (reads `git branch --list`;
its internal catch can only fire on a failing git invocation, which the
model's `branchList` never does). -/
def branchExistsLocally (b : String) (st : GitState) : Bool :=
  st.localBranches.contains b

/-- The ordered fallback chain in the `catch` of `createBranch`
(`src/github.ts` lines 206–219): `origin/<base>`, then the local
`<base>`, then the current `HEAD`; each tried only if the previous threw.
A failure of the last resort propagates to the outer catch (`ok = false`). -/
def fallbackCreate (b base : String) (st : GitState) (tr : List GitCmd) :
    BranchRun :=
  match execGit (.checkoutNewFromOrigin b base) st with
  | some st1 =>
    ⟨tr ++ [.checkoutNewFromOrigin b base], st1, true, some .originRef⟩
  | none =>
    let tr1 := tr ++ [.checkoutNewFromOrigin b base]
    match execGit (.checkoutNewFromLocal b base) st with
    | some st2 => ⟨tr1 ++ [.checkoutNewFromLocal b base], st2, true, some .localRef⟩
    | none =>
      let tr2 := tr1 ++ [.checkoutNewFromLocal b base]
      match execGit (.checkoutNewHead b) st with
      | some st3 => ⟨tr2 ++ [.checkoutNewHead b], st3, true, some .headRef⟩
      | none => ⟨tr2 ++ [.checkoutNewHead b], st, false, none⟩

/-- The final `git checkout -b <b> origin/<base>` of the main try block
(line 205); on failure control passes to the fallback chain. -/
def finalCreate (b base : String) (st : GitState) (tr : List GitCmd) :
    BranchRun :=
  match execGit (.checkoutNewFromOrigin b base) st with
  | some st1 =>
    ⟨tr ++ [.checkoutNewFromOrigin b base], st1, true, some .originRef⟩
  | none => fallbackCreate b base st (tr ++ [.checkoutNewFromOrigin b base])

/-- The "always update the base branch" try block of `createBranch`
(lines 186–205): fetch the base, ensure/update a local copy, create the
branch from `origin/<base>`; any throw diverts to the fallback chain with
whatever state mutations already happened. -/
def baseUpdateAndCreate (b base : String) (st : GitState) (tr : List GitCmd) :
    BranchRun :=
  match execGit (.fetchBase base) st with
  | none => fallbackCreate b base st (tr ++ [.fetchBase base])
  | some st1 =>
    let tr1 := tr ++ [.fetchBase base]
    if branchExistsLocally base st1 then
      let tr2 := tr1 ++ [.branchList, .showCurrent]
      if st1.currentBranch == base then
        match execGit .pullOrigin st1 with
        | none => fallbackCreate b base st1 (tr2 ++ [.pullOrigin])
        | some st2 => finalCreate b base st2 (tr2 ++ [.pullOrigin])
      else
        match execGit (.fetchIntoLocal base) st1 with
        | none => fallbackCreate b base st1 (tr2 ++ [.fetchIntoLocal base])
        | some st2 => finalCreate b base st2 (tr2 ++ [.fetchIntoLocal base])
    else
      let tr2 := tr1 ++ [.branchList]
      match execGit (.newLocalFromOrigin base) st1 with
      | none => fallbackCreate b base st1 (tr2 ++ [.newLocalFromOrigin base])
      | some st2 => finalCreate b base st2 (tr2 ++ [.newLocalFromOrigin base])

/-- `createBranch` from `src/github.ts`: reuse a local branch, else track
a remote branch (the remote check runs a plain `git fetch` and reads
`git branch -r`, so a failing fetch makes the branch count as absent),
else update the base branch and create from it with the fallback chain. -/
def createBranch (branchName baseBranch : String) (st : GitState) : BranchRun :=
  if branchExistsLocally branchName st then
    match execGit (.checkout branchName) st with
    | some st1 => ⟨[.branchList, .checkout branchName], st1, true, none⟩
    | none => ⟨[.branchList, .checkout branchName], st, false, none⟩
  else
    match execGit .fetchAll st with
    | none => baseUpdateAndCreate branchName baseBranch st [.branchList, .fetchAll]
    | some st1 =>
      let tr1 : List GitCmd := [.branchList, .fetchAll, .branchRemoteList]
      if st1.originRefs.contains branchName then
        match execGit (.checkoutTrack branchName) st1 with
        | some st2 =>
          ⟨tr1 ++ [.checkoutTrack branchName], st2, true, some .remoteTrack⟩
        | none => ⟨tr1 ++ [.checkoutTrack branchName], st1, false, none⟩
      else baseUpdateAndCreate branchName baseBranch st1 tr1

/-! ## Placeholder-commit model (for `createSampleCommitIfNeeded`) -/

/-- The commit-graph information `createSampleCommitIfNeeded` can query:
`aheadOf r` models `git rev-list HEAD ^origin/<r> --count` — `none` when
the command fails (for instance when `origin/<r>` does not exist). -/
structure CommitState where
  aheadOf : String → Option Nat

/-- `createSampleCommitIfNeeded` from `src/github.ts` (lines 144–162),
returning whether an empty placeholder commit is created.  The count is
taken against the hardcoded `origin/development`, never against the
configured base branch, and a failing count command also leads to a
commit. -/
def createSampleCommitIfNeeded (st : CommitState) : Bool :=
  match st.aheadOf "development" with
  | some n => if n > 0 then false else true
  | none => true

/-! ## `pr.js`: the PR orchestrator flow -/

/-- The fixed PR-type enumeration of `pr.js`. -/
def VALID_PR_TYPES : List String :=
  ["feat", "fix", "docs", "style", "refactor", "perf", "test", "chore",
   "ci", "build", "revert"]

/-- `CreatePROptions` as the CLI hands them over; `none` models an
omitted flag (JS `undefined`). -/
structure CreatePROptions where
  taskId : String
  type : String
  moduleOpt : Option String
  enforceAssignment : Option Bool
  useExactBranchName : Option Bool
  deriving Repr, DecidableEq

/-- The Linear issue as returned by `getTask`. -/
structure TaskData where
  taskId : String
  title : String
  description : String
  url : String
  projectName : Option String
  deriving Repr, DecidableEq

/-- Answers the interactive prompts would return.  `inquirer` re-prompts
until its `validate` callback accepts, so theorems about prompted modules
carry the corresponding `validateScope` hypotheses. -/
structure PromptEnv where
  promptedType : String
  promptedModule : String
  useFormatted : Bool
  promptedModule2 : String
  deriving Repr, DecidableEq

/-- JS falsiness of a `string | undefined` value. -/
def falsyStr : Option String → Bool
  | none => true
  | some s => s.isEmpty

/-- PR-type validation of `pr.js` (lines 27–44): an invalid type is
replaced by a list-prompted one, a valid one is lowercased. -/
def resolveType (type promptedType : String) : String :=
  if VALID_PR_TYPES.contains (jsLowerStr type) then jsLowerStr type
  else promptedType

/-- Task-reference parsing of `pr.js` (lines 45–65): branch-like input
goes through `extractTaskIdFromBranchName` (failure is terminal) and
forces the exact branch name; otherwise the literal input is the task id
and the exact-branch flag keeps its (defaulted) value. -/
def parseTaskRef (taskId : String) (useExact : Bool) :
    Except String (String × Bool) :=
  if branchLike taskId then
    match extractTaskIdFromBranchName taskId with
    | some e => Except.ok (e, true)
    | none =>
      Except.error ("Could not extract a valid Linear task ID from: " ++ taskId)
  else Except.ok (taskId, useExact)

/-- Module/scope resolution of `pr.js` (lines 79–125): caller value if it
validates; otherwise the reformatted value or a re-prompted one; with no
caller value, the formatted project name if present, else a prompt. -/
def resolveModule (moduleOpt projectName : Option String) (env : PromptEnv) :
    String :=
  if falsyStr moduleOpt && !falsyStr projectName then
    formatScope (projectName.getD "")
  else if falsyStr moduleOpt then
    env.promptedModule
  else
    let m := moduleOpt.getD ""
    if validateScope m then m
    else if env.useFormatted then formatScope m
    else env.promptedModule2

/-- What the orchestrator has assembled by the time it calls the GitHub
gateway's `createPullRequest`. -/
structure FlowResult where
  extractedTaskId : String
  branchName : String
  prScope : String
  prTitle : String
  prBody : String
  branchTrace : List GitCmd
  gitState : GitState
  deriving Repr, DecidableEq

/-- The `createPullRequest` orchestration of `pr.js` up to the GitHub
PR-creation call: type validation, input parsing, optional assignment
enforcement, module resolution, branch-name determination, branch
reconciliation (skipped when the current branch already is the target),
and title/body composition.  `prScope` records the module string as
`createPRTitle` embeds it into the title (`formatScope` applied to the
resolved module, with the `'general'` default for an empty module). -/
def createPullRequestFlow (opts : CreatePROptions) (env : PromptEnv)
    (task : TaskData) (assigned : Bool) (baseBranch : String)
    (git : GitState) : Except String FlowResult :=
  let type1 := resolveType opts.type env.promptedType
  match parseTaskRef opts.taskId (opts.useExactBranchName.getD true) with
  | Except.error e => Except.error e
  | Except.ok (extractedTaskId, exact) =>
    if opts.enforceAssignment.getD false && !assigned then
      Except.error ("Failed to create PR: Task " ++ extractedTaskId ++
        " is not assigned to you. Only assigned tasks can be used with --enforce-assignment option.")
    else
      let formattedTaskId := jsUpperStr task.taskId
      let module1 := resolveModule opts.moduleOpt task.projectName env
      let branchName :=
        if exact then opts.taskId else createBranchName task.taskId task.title
      let moduleArg := if module1.isEmpty then "general" else module1
      let mkResult (tr : List GitCmd) (g : GitState) : FlowResult :=
        { extractedTaskId, branchName,
          prScope := formatScope moduleArg,
          prTitle := createPRTitle type1 moduleArg formattedTaskId task.title,
          prBody := "This PR addresses Linear task [" ++ task.taskId ++ "](" ++
            task.url ++ ")\n\n" ++ task.description,
          branchTrace := tr, gitState := g }
      if git.currentBranch == branchName then
        Except.ok (mkResult [GitCmd.showCurrent] git)
      else
        let r := createBranch branchName baseBranch git
        if r.ok then Except.ok (mkResult (GitCmd.showCurrent :: r.trace) r.state)
        else Except.error "Failed to create PR: Failed to create branch"

/-! ## OAuth loopback callback handler (for `performOAuth2Flow`) -/

/-- The query parameters of the `GET /callback` request; `none` models an
absent parameter. -/
structure CallbackQuery where
  state : Option String
  code : Option String
  error : Option String
  deriving Repr, DecidableEq

/-- How the handler settles the surrounding promise. -/
inductive OAuthOutcome where
  /-- `resolve(accessToken)` -/
  | resolvedToken (t : String)
  /-- `reject(new Error(msg))` -/
  | rejected (msg : String)
  /-- the handler returned without settling (non-callback path) -/
  | pending
  deriving Repr, DecidableEq

/-- The HTTP response the handler writes, if any. -/
structure CallbackResponse where
  status : Nat
  body : String
  deriving Repr, DecidableEq

/-- The HTML success page of `performOAuth2Flow`. -/
def oauthSuccessPage : String :=
  "<h1>Authentication successful!</h1><p>You can close this window and return to the CLI.</p>"

/-- The request handler inside `performOAuth2Flow` (`src/linear.ts`
lines 154–223), with the token exchange abstracted as `exchange`.  On the
`/callback` path the 200 success page is written before any validation;
state mismatch, provider error, missing code and a failed exchange all
reject the promise after that page has been sent.  On other paths the
handler does nothing.  (The 500 branch of the outer catch fires only when
handling itself throws, which the pure model has no trigger for.) -/
def handleCallback (genState : String) (pathname : String) (q : CallbackQuery)
    (exchange : String → Except String String) :
    Option CallbackResponse × OAuthOutcome :=
  if pathname = "/callback" then
    let resp := some { status := 200, body := oauthSuccessPage }
    if q.state ≠ some genState then
      (resp, .rejected "Invalid state parameter")
    else
      match q.error with
      | some e =>
        if e.isEmpty then
          handleCode resp q exchange
        else (resp, .rejected ("Authorization error: " ++ e))
      | none => handleCode resp q exchange
  else (none, .pending)
where
  /-- the code-extraction and token-exchange tail of the handler -/
  handleCode (resp : Option CallbackResponse) (q : CallbackQuery)
      (exchange : String → Except String String) :
      Option CallbackResponse × OAuthOutcome :=
    match q.code with
    | none => (resp, .rejected "No authorization code returned")
    | some c =>
      if c.isEmpty then (resp, .rejected "No authorization code returned")
      else
        match exchange c with
        | Except.ok tok => (resp, .resolvedToken tok)
        | Except.error msg => (resp, .rejected msg)

/-! ## Further definitions used by the claim statements -/

/-- A list of characters of the canonical shape `[A-Za-z]+-[0-9]+`,
stated structurally (independently of the regex-matching functions). -/
def CanonicalChars (l : List Char) : Prop :=
  ∃ a b : List Char, l = a ++ '-' :: b ∧ a ≠ [] ∧ b ≠ [] ∧
    (∀ c ∈ a, isLetterA c = true) ∧ (∀ c ∈ b, isDigitA c = true)

/-- Modelled from the spec: `synthesizeBranchName` exactly as §4.1
describes it, i.e. with the title sanitization of `specSanitizeTitle`
(whitespace at the edges trimmed away rather than turned into hyphens). -/
def specSynthesizeBranchName (taskId title : String) : String :=
  let parts := (splitOnCharL '-' taskId.data).map String.mk
  "feature/" ++ jsLowerStr (parts.headD "") ++ "-" ++ parts.getD 1 "undefined" ++
    "-" ++ String.mk (specSanitizeTitle title.data)

/-! Concrete inputs used by counterexamples and witnesses. -/

/-- Caller options with a module flag of `"---"`: it passes
`validateScope` (the grammar `[a-z0-9-]+` accepts it) yet contains no
letter or digit. -/
def hyphensOpts : CreatePROptions :=
  { taskId := "ENG-1", type := "feat", moduleOpt := some "---",
    enforceAssignment := none, useExactBranchName := none }

def plainEnv : PromptEnv :=
  { promptedType := "feat", promptedModule := "core", useFormatted := true,
    promptedModule2 := "core" }

def taskEng1 : TaskData :=
  { taskId := "ENG-1", title := "Add login", description := "desc",
    url := "https://linear.app/i/ENG-1", projectName := none }

/-- A git state already sitting on the target branch `ENG-1`. -/
def gitOnEng1 : GitState :=
  { localBranches := ["ENG-1"], originRefs := [], remoteBranches := [],
    networkUp := true, currentBranch := "ENG-1" }

/-- The flow result for `hyphensOpts`: note the empty scope in the PR
title. -/
def hyphensResult : FlowResult :=
  { extractedTaskId := "ENG-1", branchName := "ENG-1", prScope := "",
    prTitle := "feat(): [ENG-1] Add login",
    prBody := "This PR addresses Linear task [ENG-1](https://linear.app/i/ENG-1)\n\ndesc",
    branchTrace := [GitCmd.showCurrent], gitState := gitOnEng1 }

/-- Options for the spec's end-to-end scenario: `ENG-42`, type `fix`,
no module flag. -/
def billingOpts : CreatePROptions :=
  { taskId := "ENG-42", type := "fix", moduleOpt := none,
    enforceAssignment := none, useExactBranchName := none }

def taskBilling : TaskData :=
  { taskId := "ENG-42", title := "Fix invoice rounding", description := "d",
    url := "https://linear.app/i/ENG-42", projectName := some "Billing" }

def gitOnEng42 : GitState :=
  { localBranches := ["ENG-42"], originRefs := [], remoteBranches := [],
    networkUp := true, currentBranch := "ENG-42" }

def billingResult : FlowResult :=
  { extractedTaskId := "ENG-42", branchName := "ENG-42", prScope := "billing",
    prTitle := "fix(billing): [ENG-42] Fix invoice rounding",
    prBody := "This PR addresses Linear task [ENG-42](https://linear.app/i/ENG-42)\n\nd",
    branchTrace := [GitCmd.showCurrent], gitState := gitOnEng42 }

/-- Network down, local `development` exists, no stale remote-tracking
ref: the fallback chain must reach the local base. -/
def gitFallback : GitState :=
  { localBranches := ["development"], originRefs := [],
    remoteBranches := ["development"], networkUp := false,
    currentBranch := "main" }

/-- Network down, local `development` exists, and a stale
`origin/development` remote-tracking ref is still present from an
earlier fetch. -/
def gitStale : GitState :=
  { localBranches := ["development"], originRefs := ["development"],
    remoteBranches := ["development"], networkUp := false,
    currentBranch := "main" }

/-- Commit state whose branch has zero commits that are not on
`origin/main` but three that are not on `origin/development`. -/
def devAheadState : CommitState :=
  { aheadOf := fun r =>
      if r = "main" then some 0
      else if r = "development" then some 3
      else none }

/-! # Theorems

First the supporting lemmas (character arithmetic, list pipeline lemmas),
then one theorem per claim, with witnesses and counterexamples. -/

/-! ## Character lemmas -/

theorem toNat_ofNat_valid (n : Nat) (h : n.isValidChar) :
    (Char.ofNat n).toNat = n := by
  unfold Char.ofNat
  rw [dif_pos h]
  rfl

theorem jsToLower_toNat_of_upper {c : Char} (h : isUpperA c = true) :
    (jsToLower c).toNat = c.toNat + 32 := by
  have hb : 65 ≤ c.toNat ∧ c.toNat ≤ 90 := by
    simpa [isUpperA] using h
  have hv : (c.toNat + 32).isValidChar := Or.inl (by omega)
  simp only [jsToLower, h, if_true]
  exact toNat_ofNat_valid _ hv

theorem jsToLower_eq_self_of_not_upper {c : Char} (h : isUpperA c = false) :
    jsToLower c = c := by
  simp [jsToLower, h]

theorem isUpperA_jsToLower (c : Char) : isUpperA (jsToLower c) = false := by
  by_cases h : isUpperA c = true
  · have ht := jsToLower_toNat_of_upper h
    have hb : 65 ≤ c.toNat ∧ c.toNat ≤ 90 := by simpa [isUpperA] using h
    simp only [isUpperA, ht]
    simp only [Bool.and_eq_false_iff, decide_eq_false_iff_not]
    omega
  · rw [jsToLower_eq_self_of_not_upper (by simpa using h)]
    simpa using h

theorem jsToLower_idem (c : Char) : jsToLower (jsToLower c) = jsToLower c := by
  exact jsToLower_eq_self_of_not_upper (isUpperA_jsToLower c)

theorem jsToLower_eq_self_of_scope {c : Char} (h : isScopeChar c = true) :
    jsToLower c = c := by
  apply jsToLower_eq_self_of_not_upper
  simp only [isUpperA, Bool.and_eq_false_iff, decide_eq_false_iff_not]
  by_cases hl : isLowerA c = true
  · have hb : 97 ≤ c.toNat ∧ c.toNat ≤ 122 := by simpa [isLowerA] using hl
    omega
  · by_cases hd : isDigitA c = true
    · have hb : 48 ≤ c.toNat ∧ c.toNat ≤ 57 := by simpa [isDigitA] using hd
      omega
    · have hl' : isLowerA c = false := by simpa using hl
      have hd' : isDigitA c = false := by simpa using hd
      have he : c = '-' := by
        simp only [isScopeChar, hl', hd', Bool.false_or, Bool.or_false] at h
        exact beq_iff_eq.mp h
      subst he
      left
      decide

/-! ## Sanity checks on concrete values from the spec -/

example : validateTaskId "ENG-123" = true := by decide
example : validateTaskId "eng-123" = true := by decide
example : validateTaskId "eng-" = false := by decide
example : extractTaskIdFromBranchName "feature/team-1234-cool-feature" =
    some "TEAM-1234" := by decide
example : extractTaskIdFromBranchName "no-id-here" = none := by decide
example : extractTaskIdFromBranchName "abc-123/" = some "ABC-123" := by decide
example : formatScope "My Module!!" = "my-module" := by decide
example : createBranchName "TEAM-123" "Add Login Flow" =
    "feature/team-123-add-login-flow" := by decide
example : createBranchName "TEAM-123" " Add Login Flow" =
    "feature/team-123--add-login-flow" := by decide
example : createPRTitle "feat" "Auth" "eng-123" "Add OAuth" =
    "feat(auth): [ENG-123] Add OAuth" := by decide

/-! ## Lemmas about the `formatScope` pipeline -/

theorem bool_not_true {b : Bool} (h : (!b) = true) : b = false := by
  cases b
  · rfl
  · simp at h

theorem collapseH_ne_nil (x : Char) (l : List Char) : collapseH (x :: l) ≠ [] := by
  induction l generalizing x with
  | nil => simp [collapseH]
  | cons b rest ih =>
    simp only [collapseH]
    by_cases h : (x == '-' && b == '-') = true
    · rw [if_pos h]
      exact ih b
    · rw [if_neg h]
      simp

theorem head?_collapseH (x : Char) (l : List Char) :
    (collapseH (x :: l)).head? = some x := by
  induction l generalizing x with
  | nil => rfl
  | cons b rest ih =>
    simp only [collapseH]
    by_cases h : (x == '-' && b == '-') = true
    · rw [if_pos h]
      have hx : x = '-' := by
        have := (Bool.and_eq_true _ _).mp h
        exact beq_iff_eq.mp this.1
      have hb : b = '-' := by
        have := (Bool.and_eq_true _ _).mp h
        exact beq_iff_eq.mp this.2
      rw [ih b, hx, hb]
    · rw [if_neg h]
      rfl

theorem mem_collapseH {c : Char} {l : List Char} (h : c ∈ collapseH l) :
    c ∈ l := by
  induction l with
  | nil => simp [collapseH] at h
  | cons a t ih =>
    cases t with
    | nil => simpa [collapseH] using h
    | cons b rest =>
      simp only [collapseH] at h
      by_cases hd : (a == '-' && b == '-') = true
      · rw [if_pos hd] at h
        exact List.mem_cons_of_mem a (ih h)
      · rw [if_neg hd] at h
        rcases List.mem_cons.mp h with h | h
        · exact h ▸ List.mem_cons_self a _
        · exact List.mem_cons_of_mem a (ih h)

theorem noDupHyphen_collapseH (l : List Char) :
    noDupHyphen (collapseH l) = true := by
  induction l with
  | nil => rfl
  | cons a t ih =>
    cases t with
    | nil => rfl
    | cons b rest =>
      simp only [collapseH]
      by_cases h : (a == '-' && b == '-') = true
      · rw [if_pos h]
        exact ih
      · rw [if_neg h]
        obtain ⟨c, cs, hc⟩ : ∃ c cs, collapseH (b :: rest) = c :: cs := by
          cases hcb : collapseH (b :: rest) with
          | nil => exact absurd hcb (collapseH_ne_nil b rest)
          | cons c cs => exact ⟨c, cs, rfl⟩
        have hcb : c = b := by
          have hh := head?_collapseH b rest
          rw [hc] at hh
          simpa using hh
        rw [hc]
        simp only [noDupHyphen, Bool.and_eq_true]
        refine ⟨?_, ?_⟩
        · rw [hcb]
          cases hx : (a == '-' && b == '-') with
          | false => simp [hx]
          | true => exact absurd hx h
        · rw [← hc]
          exact ih

theorem collapseH_eq_self {l : List Char} (h : noDupHyphen l = true) :
    collapseH l = l := by
  induction l with
  | nil => rfl
  | cons a t ih =>
    cases t with
    | nil => rfl
    | cons b rest =>
      simp only [noDupHyphen, Bool.and_eq_true] at h
      simp only [collapseH]
      have hf : (a == '-' && b == '-') = false := bool_not_true h.1
      rw [if_neg (by simp [hf]), ih h.2]

theorem noDupHyphen_tail {a : Char} {l : List Char}
    (h : noDupHyphen (a :: l) = true) : noDupHyphen l = true := by
  cases l with
  | nil => rfl
  | cons b r =>
    simp only [noDupHyphen, Bool.and_eq_true] at h
    exact h.2

theorem noDupHyphen_cons_of {a : Char} {l : List Char}
    (h : noDupHyphen (a :: l) = true) (b : Char) (hb : l.head? = some b) :
    (a == '-' && b == '-') = false := by
  cases l with
  | nil => simp at hb
  | cons c r =>
    simp only [List.head?_cons, Option.some.injEq] at hb
    subst hb
    simp only [noDupHyphen, Bool.and_eq_true] at h
    exact bool_not_true h.1

theorem noDupHyphen_of_suffix {l1 l2 : List Char} (hs : l2 <:+ l1)
    (h : noDupHyphen l1 = true) : noDupHyphen l2 = true := by
  obtain ⟨t, rfl⟩ := hs
  induction t with
  | nil => exact h
  | cons a t ih => exact ih (noDupHyphen_tail h)

theorem noDupHyphen_append_left {l1 l2 : List Char}
    (h : noDupHyphen (l1 ++ l2) = true) : noDupHyphen l1 = true := by
  induction l1 with
  | nil => rfl
  | cons a t ih =>
    cases t with
    | nil => rfl
    | cons b r =>
      simp only [List.cons_append, noDupHyphen, Bool.and_eq_true] at h ⊢
      exact ⟨h.1, ih h.2⟩

theorem noDupHyphen_of_prefix {l1 l2 : List Char} (hp : l2 <+: l1)
    (h : noDupHyphen l1 = true) : noDupHyphen l2 = true := by
  obtain ⟨t, rfl⟩ := hp
  exact noDupHyphen_append_left h

theorem head?_dropWhile_not {p : Char → Bool} {l : List Char} {a : Char}
    (h : (l.dropWhile p).head? = some a) : p a = false := by
  induction l with
  | nil => simp [List.dropWhile] at h
  | cons x xs ih =>
    rw [List.dropWhile_cons] at h
    by_cases hp : p x = true
    · rw [if_pos hp] at h
      exact ih h
    · rw [if_neg hp] at h
      simp only [List.head?_cons, Option.some.injEq] at h
      subst h
      simpa using hp

theorem dropWhile_eq_self_of_head {p : Char → Bool} {l : List Char}
    (h : ∀ a, l.head? = some a → p a = false) : l.dropWhile p = l := by
  cases l with
  | nil => rfl
  | cons x xs =>
    rw [List.dropWhile_cons, if_neg]
    simp [h x rfl]

/-- `trimH` produces a prefix of a suffix (an infix) of its argument. -/
theorem trimH_infix (l : List Char) : ∃ s t, l = s ++ trimH l ++ t := by
  have h1 : l.dropWhile (fun c => c == '-') <:+ l := List.dropWhile_suffix _
  have h2 : (l.dropWhile (fun c => c == '-')).reverse.dropWhile (fun c => c == '-') <:+
      (l.dropWhile (fun c => c == '-')).reverse := List.dropWhile_suffix _
  have h3 : trimH l <+: l.dropWhile (fun c => c == '-') := by
    have := List.reverse_prefix.mpr h2
    simpa [trimH] using this
  obtain ⟨t1, ht1⟩ := h3
  obtain ⟨s1, hs1⟩ := h1
  refine ⟨s1, t1, ?_⟩
  conv_lhs => rw [← hs1, ← ht1]
  rw [List.append_assoc]

theorem mem_trimH {c : Char} {l : List Char} (h : c ∈ trimH l) : c ∈ l := by
  obtain ⟨s, t, hst⟩ := trimH_infix l
  rw [hst]
  simp only [List.mem_append]
  exact Or.inl (Or.inr h)

theorem noDupHyphen_trimH {l : List Char} (h : noDupHyphen l = true) :
    noDupHyphen (trimH l) = true := by
  have h1 : noDupHyphen (l.dropWhile (fun c => c == '-')) = true :=
    noDupHyphen_of_suffix (List.dropWhile_suffix _) h
  have h3 : trimH l <+: l.dropWhile (fun c => c == '-') := by
    have := List.reverse_prefix.mpr
      (List.dropWhile_suffix (l := (l.dropWhile (fun c => c == '-')).reverse)
        (fun c => c == '-'))
    simpa [trimH] using this
  exact noDupHyphen_of_prefix h3 h1

theorem head?_trimH_ne (l : List Char) : (trimH l).head? ≠ some '-' := by
  intro h
  set d := l.dropWhile (fun c => c == '-') with hd
  have h3 : trimH l <+: d := by
    have := List.reverse_prefix.mpr
      (List.dropWhile_suffix (l := d.reverse) (fun c => c == '-'))
    simpa [trimH, hd] using this
  obtain ⟨t, ht⟩ := h3
  have hne : trimH l ≠ [] := by
    intro hn
    rw [hn] at h
    simp at h
  have hhead : d.head? = some '-' := by
    rw [← ht]
    cases htl : trimH l with
    | nil => exact absurd htl hne
    | cons x xs =>
      rw [htl] at h
      simp only [List.head?_cons, Option.some.injEq] at h
      subst h
      simp [htl]
  have := head?_dropWhile_not (p := fun c => c == '-') (l := l) hhead
  simp at this

theorem getLast?_trimH_ne (l : List Char) : (trimH l).getLast? ≠ some '-' := by
  intro h
  rw [List.getLast?_eq_head?_reverse] at h
  simp only [trimH, List.reverse_reverse] at h
  have := head?_dropWhile_not (p := fun c => c == '-')
    (l := (l.dropWhile (fun c => c == '-')).reverse) h
  simp at this

theorem trimH_eq_self {l : List Char} (h1 : l.head? ≠ some '-')
    (h2 : l.getLast? ≠ some '-') : trimH l = l := by
  have e1 : l.dropWhile (fun c => c == '-') = l := by
    apply dropWhile_eq_self_of_head
    intro a ha
    by_cases hx : a = '-'
    · subst hx
      exact absurd ha h1
    · simp [hx]
  have e2 : l.reverse.dropWhile (fun c => c == '-') = l.reverse := by
    apply dropWhile_eq_self_of_head
    intro a ha
    rw [List.head?_reverse] at ha
    by_cases hx : a = '-'
    · exact absurd (hx ▸ ha) h2
    · simp [hx]
  simp only [trimH, e1, e2, List.reverse_reverse]

/-! ## Shape and idempotence of `formatScope` -/

theorem isScopeChar_toHyphen (c : Char) : isScopeChar (toHyphen c) = true := by
  unfold toHyphen
  by_cases h : isScopeChar c = true
  · rw [if_pos h]
    exact h
  · rw [if_neg h]
    decide

theorem formatScope_data (s : String) :
    (formatScope s).data = trimH (collapseH ((s.data.map jsToLower).map toHyphen)) :=
  rfl

theorem mem_formatScope_scope {s : String} {c : Char}
    (h : c ∈ (formatScope s).data) : isScopeChar c = true := by
  rw [formatScope_data] at h
  have h1 := mem_collapseH (mem_trimH h)
  obtain ⟨d, _, rfl⟩ := List.mem_map.mp h1
  exact isScopeChar_toHyphen d

/-- Every `formatScope` output satisfies the relaxed scope grammar
`[a-z0-9-]*` with no leading, trailing, or duplicated hyphen. -/
theorem scopeShape_formatScope (s : String) : scopeShape (formatScope s) = true := by
  unfold scopeShape
  have hall : (formatScope s).data.all isScopeChar = true :=
    List.all_eq_true.mpr (fun c hc => mem_formatScope_scope hc)
  have hhead : ((formatScope s).data.head? == some '-') = false := by
    rw [formatScope_data]
    have := head?_trimH_ne (collapseH ((s.data.map jsToLower).map toHyphen))
    simpa using this
  have hlast : ((formatScope s).data.getLast? == some '-') = false := by
    rw [formatScope_data]
    have := getLast?_trimH_ne (collapseH ((s.data.map jsToLower).map toHyphen))
    simpa using this
  have hdup : noDupHyphen (formatScope s).data = true := by
    rw [formatScope_data]
    exact noDupHyphen_trimH (noDupHyphen_collapseH _)
  rw [hall, hhead, hlast, hdup]
  rfl

theorem formatScope_fixed_of_shape {s : String} (h : scopeShape s = true) :
    formatScope s = s := by
  unfold scopeShape at h
  simp only [Bool.and_eq_true] at h
  obtain ⟨⟨⟨hall, hhead⟩, hlast⟩, hdup⟩ := h
  have hmem : ∀ c ∈ s.data, isScopeChar c = true := List.all_eq_true.mp hall
  have e1 : s.data.map jsToLower = s.data := by
    rw [List.map_congr_left (fun c hc => jsToLower_eq_self_of_scope (hmem c hc))]
    exact List.map_id _
  have e2 : s.data.map toHyphen = s.data := by
    rw [List.map_congr_left (g := id) (fun c hc => by
      simp [toHyphen, hmem c hc])]
    exact List.map_id _
  have e3 : collapseH s.data = s.data := collapseH_eq_self hdup
  have e4 : trimH s.data = s.data := by
    apply trimH_eq_self
    · intro hx
      rw [hx] at hhead
      simp at hhead
    · intro hx
      rw [hx] at hlast
      simp at hlast
  unfold formatScope
  rw [e1, e2, e3, e4]

theorem formatScope_idem (s : String) :
    formatScope (formatScope s) = formatScope s :=
  formatScope_fixed_of_shape (scopeShape_formatScope s)

/-! ## Claim C8 -/

/-- C8: for every input string, `formatScope` produces a string matching
`^[a-z0-9-]*$` with no leading, trailing, or duplicate hyphens, and it is
idempotent; in particular `formatScope "My Module!!" = "my-module"`. -/
theorem C8_formatScope_shape_and_idempotent :
    (∀ s : String, scopeShape (formatScope s) = true) ∧
    (∀ s : String, formatScope (formatScope s) = formatScope s) ∧
    formatScope "My Module!!" = "my-module" :=
  ⟨scopeShape_formatScope, formatScope_idem, by decide⟩

/-! ## Claim C7 -/

/-- C7: for all inputs, `createPRTitle` composes exactly
`{type}({formatScope(module)}): [{taskId uppercased}] {description}` with
no further escaping; in particular
`createPRTitle "feat" "Auth" "eng-123" "Add OAuth" = "feat(auth): [ENG-123] Add OAuth"`. -/
theorem C7_createPRTitle_format :
    (∀ type module taskId description : String,
      createPRTitle type module taskId description =
        type ++ "(" ++ formatScope module ++ "): [" ++ jsUpperStr taskId ++
          "] " ++ description) ∧
    createPRTitle "feat" "Auth" "eng-123" "Add OAuth" =
      "feat(auth): [ENG-123] Add OAuth" :=
  ⟨fun _ _ _ _ => rfl, by decide⟩

/-! ## Claim C1 -/

/-- C1 counterexample: with the caller flag `--module ---` (accepted by
`validateScope`), the orchestrator reaches PR creation with an empty
scope embedded in the title — `feat(): [ENG-1] Add login` — which does
not satisfy the non-empty scope grammar `[a-z0-9-]+`. -/
theorem C1_counterexample :
    createPullRequestFlow hyphensOpts plainEnv taskEng1 true "development"
        gitOnEng1 = Except.ok hyphensResult ∧
    hyphensResult.prScope = "" ∧
    validateScope hyphensResult.prScope = false ∧
    hyphensResult.prTitle = "feat(): [ENG-1] Add login" := by
  refine ⟨rfl, by decide, by decide, by decide⟩

/-- C1 amended: whenever the orchestrator reaches PR creation, the scope
embedded in the PR title is a `formatScope` image, hence matches
`^[a-z0-9-]*$` with no leading, trailing, or duplicate hyphens — but it
can be empty (the counterexample): a validated module consisting only of
hyphens collapses to the empty scope. -/
theorem C1_amended_scope_always_formatted
    (opts : CreatePROptions) (env : PromptEnv) (task : TaskData)
    (assigned : Bool) (baseBranch : String) (git : GitState) (r : FlowResult)
    (h : createPullRequestFlow opts env task assigned baseBranch git =
      Except.ok r) :
    scopeShape r.prScope = true := by
  unfold createPullRequestFlow at h
  dsimp only at h
  repeat' split at h
  all_goals
    first
      | (simp only [Except.ok.injEq] at h
         subst h
         exact scopeShape_formatScope _)
      | exact absurd h (by simp)

/-- C1 amended, witness: the amended theorem applied to the concrete
hyphen-module run. -/
theorem C1_amended_scope_always_formatted_witness :
    scopeShape hyphensResult.prScope = true :=
  C1_amended_scope_always_formatted hyphensOpts plainEnv taskEng1 true
    "development" gitOnEng1 hyphensResult rfl

/-! ## Claim C2 -/

theorem containsS_iff {l : List String} {x : String} :
    l.contains x = true ↔ x ∈ l := by
  simp [List.contains, List.elem_iff]

theorem contains_unionL_right {a b : List String} {x : String}
    (h : b.contains x = true) : (unionL a b).contains x = true := by
  have hx : x ∈ b := containsS_iff.mp h
  by_cases ha : x ∈ a
  · simp [unionL, List.contains, List.elem_iff, ha]
  · simp [unionL, List.contains, List.elem_iff, ha, hx]

/-- C2 counterexample: the base fetch fails (network down) and the local
base branch `development` exists, yet because a stale
`origin/development` remote-tracking ref is still usable, the first
fallback succeeds and the branch is created from the origin ref — not
from the local base as the claim asserts. -/
theorem C2_counterexample :
    (createBranch "feature/x" "development" gitStale).ok = true ∧
    (createBranch "feature/x" "development" gitStale).createdFrom =
      some CreateSrc.originRef ∧
    gitStale.networkUp = false ∧
    gitStale.localBranches.contains "development" = true ∧
    some CreateSrc.originRef ≠ some CreateSrc.localRef := by
  refine ⟨rfl, rfl, rfl, rfl, by decide⟩

/-- Helper: a locally existing target branch is checked out and nothing
else happens. -/
theorem createBranch_local_reuse (b base : String) (st : GitState)
    (h : st.localBranches.contains b = true) :
    createBranch b base st =
      ⟨[.branchList, .checkout b], { st with currentBranch := b }, true, none⟩ := by
  have hm : b ∈ st.localBranches := containsS_iff.mp h
  simp [createBranch, branchExistsLocally, execGit, h, hm]

/-- Helper: a branch visible on the remote is checked out as a tracking
branch; the trace contains no base-branch fetch. -/
theorem createBranch_remote_track (b base : String) (st : GitState)
    (hl : st.localBranches.contains b = false)
    (hn : st.networkUp = true)
    (hr : st.remoteBranches.contains b = true) :
    createBranch b base st =
      ⟨[.branchList, .fetchAll, .branchRemoteList, .checkoutTrack b],
       { st with originRefs := unionL st.originRefs st.remoteBranches,
                 localBranches := b :: st.localBranches,
                 currentBranch := b }, true, some .remoteTrack⟩ := by
  have hm : b ∉ st.localBranches := by
    intro hx
    rw [containsS_iff.mpr hx] at hl
    exact absurd hl (by simp)
  have hu : b ∈ unionL st.originRefs st.remoteBranches :=
    containsS_iff.mp (contains_unionL_right hr)
  simp [createBranch, branchExistsLocally, execGit, hl, hn, hm, hu]

/-- Helper: with the network up, a fresh base on the remote and a target
branch nowhere in sight, the main path fetches the base and creates the
branch from `origin/<base>`. -/
theorem createBranch_main_path (b base : String) (st : GitState)
    (hl : st.localBranches.contains b = false)
    (hn : st.networkUp = true)
    (hvis : (unionL st.originRefs st.remoteBranches).contains b = false)
    (hbase : st.remoteBranches.contains base = true)
    (hne : b ≠ base) :
    (createBranch b base st).ok = true ∧
    (createBranch b base st).createdFrom = some CreateSrc.originRef ∧
    (createBranch b base st).trace.contains (GitCmd.fetchBase base) = true := by
  have hm : b ∉ st.localBranches := by
    intro hx
    rw [containsS_iff.mpr hx] at hl
    exact absurd hl (by simp)
  have hvm : b ∉ unionL st.originRefs st.remoteBranches := by
    intro hx
    rw [containsS_iff.mpr hx] at hvis
    exact absurd hvis (by simp)
  have hbm : base ∈ st.remoteBranches := containsS_iff.mp hbase
  have hb2 : base ∈ unionL (unionL st.originRefs st.remoteBranches) [base] :=
    containsS_iff.mp (contains_unionL_right (by simp [List.contains]))
  by_cases hb : base ∈ st.localBranches
  · by_cases hc : st.currentBranch = base
    · simp [createBranch, branchExistsLocally, execGit, baseUpdateAndCreate,
        finalCreate, fallbackCreate, hl, hn, hm, hvm, hbm, hb2, hb, hc,
        containsS_iff, hne]
    · simp [createBranch, branchExistsLocally, execGit, baseUpdateAndCreate,
        finalCreate, fallbackCreate, hl, hn, hm, hvm, hbm, hb2, hb, hc,
        containsS_iff, hne]
  · simp [createBranch, branchExistsLocally, execGit, baseUpdateAndCreate,
      finalCreate, fallbackCreate, hl, hn, hm, hvm, hbm, hb2, hb,
      containsS_iff, hne]

/-- Helper: with the network down, the fallback chain is tried strictly
in the order origin-ref, local base, current head — the first usable
source wins and no error reaches the caller. -/
theorem createBranch_fallback_cascade (b base : String) (st : GitState)
    (hl : st.localBranches.contains b = false)
    (hn : st.networkUp = false) :
    (createBranch b base st).ok = true ∧
    (createBranch b base st).createdFrom =
      some (if st.originRefs.contains base then CreateSrc.originRef
            else if st.localBranches.contains base then CreateSrc.localRef
            else CreateSrc.headRef) := by
  have hm : b ∉ st.localBranches := by
    intro hx
    rw [containsS_iff.mpr hx] at hl
    exact absurd hl (by simp)
  by_cases ho : base ∈ st.originRefs
  · have ho' : st.originRefs.contains base = true := containsS_iff.mpr ho
    simp [createBranch, branchExistsLocally, execGit, baseUpdateAndCreate,
      fallbackCreate, hl, hn, hm, ho, ho']
  · have ho' : st.originRefs.contains base = false := by
      cases hx : st.originRefs.contains base
      · rfl
      · exact absurd (containsS_iff.mp hx) ho
    by_cases hb : base ∈ st.localBranches
    · have hb' : st.localBranches.contains base = true := containsS_iff.mpr hb
      simp [createBranch, branchExistsLocally, execGit, baseUpdateAndCreate,
        fallbackCreate, hl, hn, hm, ho, ho', hb, hb']
    · have hb' : st.localBranches.contains base = false := by
        cases hx : st.localBranches.contains base
        · rfl
        · exact absurd (containsS_iff.mp hx) hb
      simp [createBranch, branchExistsLocally, execGit, baseUpdateAndCreate,
        fallbackCreate, hl, hn, hm, ho, ho', hb, hb']

/-- C2 amended: (1) a locally existing branch is checked out with no
branch-creation command; (2) a remote-only branch becomes a local
tracking branch with no base-branch fetch; (3) otherwise the base is
fetched and the branch created from `origin/<base>`; (4) when the base
fetch fails the fallback order is origin-ref, then local base, then
current head, each tried only after the previous failed, with no error
reaching the caller — so the branch is created from the local base only
when no usable `origin/<base>` ref remains (the stale-ref counterexample
shows the origin ref can win even though the fetch failed). -/
theorem C2_branch_reconciliation_policy :
    (∀ (b base : String) (st : GitState),
      st.localBranches.contains b = true →
      createBranch b base st =
        ⟨[.branchList, .checkout b], { st with currentBranch := b }, true, none⟩) ∧
    (∀ (b base : String) (st : GitState),
      st.localBranches.contains b = false → st.networkUp = true →
      st.remoteBranches.contains b = true →
      createBranch b base st =
        ⟨[.branchList, .fetchAll, .branchRemoteList, .checkoutTrack b],
         { st with originRefs := unionL st.originRefs st.remoteBranches,
                   localBranches := b :: st.localBranches,
                   currentBranch := b }, true, some .remoteTrack⟩) ∧
    (∀ (b base : String) (st : GitState),
      st.localBranches.contains b = false → st.networkUp = true →
      (unionL st.originRefs st.remoteBranches).contains b = false →
      st.remoteBranches.contains base = true → b ≠ base →
      (createBranch b base st).ok = true ∧
      (createBranch b base st).createdFrom = some CreateSrc.originRef ∧
      (createBranch b base st).trace.contains (GitCmd.fetchBase base) = true) ∧
    (∀ (b base : String) (st : GitState),
      st.localBranches.contains b = false → st.networkUp = false →
      (createBranch b base st).ok = true ∧
      (createBranch b base st).createdFrom =
        some (if st.originRefs.contains base then CreateSrc.originRef
              else if st.localBranches.contains base then CreateSrc.localRef
              else CreateSrc.headRef)) :=
  ⟨createBranch_local_reuse, createBranch_remote_track,
   createBranch_main_path, createBranch_fallback_cascade⟩

/-- C2 amended, witness: at `gitFallback` (network down, local base
present, no stale origin ref) the branch is created from the local base
with no error. -/
theorem C2_branch_reconciliation_policy_witness :
    (createBranch "feature/x" "development" gitFallback).ok = true ∧
    (createBranch "feature/x" "development" gitFallback).createdFrom =
      some CreateSrc.localRef := by
  have h := C2_branch_reconciliation_policy.2.2.2 "feature/x" "development"
    gitFallback (by decide) (by decide)
  exact ⟨h.1, h.2⟩

/-! ## Claim C3 -/

/-- Helper: a successful parse returns the exact-branch flag forced to
`true` for branch-like input and the caller's (defaulted) flag otherwise. -/
theorem parseTaskRef_exact {taskId : String} {u : Bool} {eid : String} {ex : Bool}
    (h : parseTaskRef taskId u = Except.ok (eid, ex)) :
    ex = (u || branchLike taskId) := by
  unfold parseTaskRef at h
  split at h
  · rename_i hb
    split at h
    · simp only [Except.ok.injEq, Prod.mk.injEq] at h
      rw [hb, ← h.2]
      simp
    · exact absurd h (by simp)
  · rename_i hb
    have hb' : branchLike taskId = false := by simpa using hb
    simp only [Except.ok.injEq, Prod.mk.injEq] at h
    rw [hb', ← h.2]
    simp

/-- C3: whenever the orchestrator reaches branch determination, the
target branch is the literal caller input exactly when the "use exact
branch name" option (default `true`) is set or the input was classified
as branch-like; otherwise it is the name synthesized from the resolved
issue's identifier and title. -/
theorem C3_branch_name_determination
    (opts : CreatePROptions) (env : PromptEnv) (task : TaskData)
    (assigned : Bool) (baseBranch : String) (git : GitState) (r : FlowResult)
    (h : createPullRequestFlow opts env task assigned baseBranch git =
      Except.ok r) :
    r.branchName =
      if (opts.useExactBranchName.getD true || branchLike opts.taskId) = true
      then opts.taskId
      else createBranchName task.taskId task.title := by
  unfold createPullRequestFlow at h
  dsimp only at h
  cases hp : parseTaskRef opts.taskId (opts.useExactBranchName.getD true) with
  | error e =>
    rw [hp] at h
    exact absurd h (by simp)
  | ok p =>
    obtain ⟨eid, ex⟩ := p
    rw [hp] at h
    have hex : ex = (opts.useExactBranchName.getD true || branchLike opts.taskId) :=
      parseTaskRef_exact hp
    rw [← hex]
    repeat' split at h
    all_goals
      first
        | (simp only [Except.ok.injEq] at h
           subst h
           simp_all)
        | exact absurd h (by simp)

/-- C3 witness: the end-to-end billing scenario, where the defaulted
exact-branch flag keeps the literal input `ENG-42`. -/
theorem C3_branch_name_determination_witness :
    billingResult.branchName =
      if (billingOpts.useExactBranchName.getD true ||
          branchLike billingOpts.taskId) = true
      then billingOpts.taskId
      else createBranchName taskBilling.taskId taskBilling.title :=
  C3_branch_name_determination billingOpts plainEnv taskBilling true
    "development" gitOnEng42 billingResult rfl
theorem takeWhile_all_append {p : Char → Bool} {a : List Char} {d : Char}
    {b : List Char} (ha : ∀ c ∈ a, p c = true) (hd : p d = false) :
    (a ++ d :: b).takeWhile p = a := by
  induction a with
  | nil => simp [List.takeWhile_cons, hd]
  | cons x xs ih =>
    have hx : p x = true := ha x (List.mem_cons_self x xs)
    simp only [List.cons_append, List.takeWhile_cons, hx, if_true]
    rw [ih (fun c hc => ha c (List.mem_cons_of_mem x hc))]

theorem dropWhile_all_append {p : Char → Bool} {a : List Char} {d : Char}
    {b : List Char} (ha : ∀ c ∈ a, p c = true) (hd : p d = false) :
    (a ++ d :: b).dropWhile p = d :: b := by
  induction a with
  | nil => simp [List.dropWhile_cons, hd]
  | cons x xs ih =>
    have hx : p x = true := ha x (List.mem_cons_self x xs)
    simp only [List.cons_append, List.dropWhile_cons, hx, if_true]
    exact ih (fun c hc => ha c (List.mem_cons_of_mem x hc))

theorem ne_slash_of_letter {c : Char} (h : isLetterA c = true) :
    (c == '/') = false := by
  have hn : c.toNat ≠ 47 := by
    simp [isLetterA, isUpperA, isLowerA] at h
    omega
  rw [beq_eq_false_iff_ne]
  intro he
  subst he
  exact hn (by decide)

theorem ne_slash_of_digit {c : Char} (h : isDigitA c = true) :
    (c == '/') = false := by
  have hn : c.toNat ≠ 47 := by
    simp [isDigitA] at h
    omega
  rw [beq_eq_false_iff_ne]
  intro he
  subst he
  exact hn (by decide)

theorem canonical_no_slash {l : List Char} (h : CanonicalChars l) :
    ∀ c ∈ l, (c == '/') = false := by
  obtain ⟨a, b, rfl, _, _, ha, hb⟩ := h
  intro c hc
  rcases List.mem_append.mp hc with hc | hc
  · exact ne_slash_of_letter (ha c hc)
  · rcases List.mem_cons.mp hc with rfl | hc
    · decide
    · exact ne_slash_of_digit (hb c hc)

theorem lastSegment_eq_self {l : List Char}
    (h : ∀ c ∈ l, (c == '/') = false) : lastSegment l = l := by
  unfold lastSegment
  rw [List.takeWhile_eq_self_iff.mpr ?_, List.reverse_reverse]
  intro x hx
  rw [List.mem_reverse] at hx
  simp [h x hx]

theorem canonical_matchesCanonical {l : List Char} (h : CanonicalChars l) :
    matchesCanonical l = true := by
  obtain ⟨a, b, rfl, hane, hbne, ha, hb⟩ := h
  have h1 : (a ++ '-' :: b).dropWhile isLetterA = '-' :: b :=
    dropWhile_all_append ha (by decide)
  have h2 : (a ++ '-' :: b).takeWhile isLetterA = a :=
    takeWhile_all_append ha (by decide)
  have hball : b.all isDigitA = true := List.all_eq_true.mpr hb
  simp [matchesCanonical, h1, h2, hball, List.isEmpty_iff, hane, hbne]

theorem canonical_tryMatch {l : List Char} (h : CanonicalChars l) :
    tryMatch l = some l := by
  obtain ⟨a, b, rfl, hane, hbne, ha, hb⟩ := h
  have h1 : (a ++ '-' :: b).dropWhile isLetterA = '-' :: b :=
    dropWhile_all_append ha (by decide)
  have h2 : (a ++ '-' :: b).takeWhile isLetterA = a :=
    takeWhile_all_append ha (by decide)
  have h3 : b.takeWhile isDigitA = b := List.takeWhile_eq_self_iff.mpr hb
  simp [tryMatch, h1, h2, h3, List.isEmpty_iff, hane, hbne]

theorem canonical_findTaskId {l : List Char} (h : CanonicalChars l) :
    findTaskId l = some l := by
  have hm := canonical_tryMatch h
  obtain ⟨a, b, rfl, hane, hbne, ha, hb⟩ := h
  cases a with
  | nil => exact absurd rfl hane
  | cons x xs =>
    have he : (x :: xs) ++ '-' :: b = x :: (xs ++ '-' :: b) := rfl
    rw [he] at hm ⊢
    simp only [findTaskId, hm]

/-- C4 counterexample: on `"abc-123/"` everything before the last `/` is
`abc-123` and the remainder is empty, so the claim's algorithm (embodied
by `specExtractTaskId`) yields absence — but the code's
`split('/').pop() || branchName` fallback searches the whole input and
returns `ABC-123`. -/
theorem C4_counterexample :
    extractTaskIdFromBranchName "abc-123/" = some "ABC-123" ∧
    specExtractTaskId "abc-123/" = none ∧
    lastSegment "abc-123/".data = [] := by
  refine ⟨by decide, by decide, by decide⟩

/-- C4 amended: extraction searches the part after the last `/` when it
is nonempty and falls back to the whole input otherwise; it never throws
(it is a total function into `Option`); and for every string of the
canonical shape `[A-Za-z]+-[0-9]+`, validation accepts it and extraction
returns its uppercase form. -/
theorem C4_extraction_and_validation :
    (∀ s : String, CanonicalChars s.data →
      validateTaskId s = true ∧
      extractTaskIdFromBranchName s = some (jsUpperStr s)) ∧
    extractTaskIdFromBranchName "abc-123/" = some "ABC-123" ∧
    extractTaskIdFromBranchName "no-id-here" = none := by
  refine ⟨?_, by decide, by decide⟩
  intro s hs
  refine ⟨canonical_matchesCanonical hs, ?_⟩
  have hns : ∀ c ∈ s.data, (c == '/') = false := canonical_no_slash hs
  have hne : s.data ≠ [] := by
    obtain ⟨a, b, he, _, _, _, _⟩ := hs
    rw [he]
    simp
  have hemp : s.data.isEmpty = false := by
    cases hd : s.data with
    | nil => exact absurd hd hne
    | cons x xs => rfl
  unfold extractTaskIdFromBranchName
  rw [lastSegment_eq_self hns]
  simp [hemp, canonical_findTaskId hs, jsUpperStr]

/-- C4 amended, witness: the canonical string `eng-12`. -/
theorem C4_extraction_and_validation_witness :
    validateTaskId "eng-12" = true ∧
    extractTaskIdFromBranchName "eng-12" = some (jsUpperStr "eng-12") :=
  C4_extraction_and_validation.1 "eng-12"
    ⟨['e','n','g'], ['1','2'], by decide, by decide, by decide, by decide,
     by decide⟩
theorem spaceRuns_nil_eq : spaceRunsToHyphens [] = [] := rfl

theorem spaceRuns_single_space {a : Char} (ha : isJsSpace a = true) :
    spaceRunsToHyphens [a] = ['-'] := by
  rw [spaceRunsToHyphens.eq_def]
  dsimp only
  rw [if_pos ha]

theorem spaceRuns_space_space {a d : Char} {r : List Char}
    (ha : isJsSpace a = true) (hd : isJsSpace d = true) :
    spaceRunsToHyphens (a :: d :: r) = spaceRunsToHyphens (d :: r) := by
  conv_lhs => rw [spaceRunsToHyphens.eq_def]
  dsimp only
  rw [if_pos ha]
  simp only [hd, if_true]

theorem spaceRuns_space_nonspace {a d : Char} {r : List Char}
    (ha : isJsSpace a = true) (hd : isJsSpace d = false) :
    spaceRunsToHyphens (a :: d :: r) = '-' :: spaceRunsToHyphens (d :: r) := by
  conv_lhs => rw [spaceRunsToHyphens.eq_def]
  dsimp only
  rw [if_pos ha]
  simp only [hd, Bool.false_eq_true, if_false]

theorem spaceRuns_nonspace {a : Char} {t : List Char}
    (ha : isJsSpace a = false) :
    spaceRunsToHyphens (a :: t) = a :: spaceRunsToHyphens t := by
  conv_lhs => rw [spaceRunsToHyphens.eq_def]
  dsimp only
  rw [if_neg (by simp [ha])]

theorem mem_spaceRuns {l : List Char} {c : Char}
    (h : c ∈ spaceRunsToHyphens l) : c = '-' ∨ (c ∈ l ∧ isJsSpace c = false) := by
  induction l with
  | nil => simp [spaceRunsToHyphens] at h
  | cons a t ih =>
    by_cases ha : isJsSpace a = true
    · cases t with
      | nil =>
        rw [spaceRuns_single_space ha] at h
        rcases List.mem_cons.mp h with rfl | h
        · exact Or.inl rfl
        · simp at h
      | cons d r =>
        by_cases hd : isJsSpace d = true
        · rw [spaceRuns_space_space ha hd] at h
          rcases ih h with h | ⟨h1, h2⟩
          · exact Or.inl h
          · exact Or.inr ⟨List.mem_cons_of_mem a h1, h2⟩
        · rw [spaceRuns_space_nonspace ha (by simpa using hd)] at h
          rcases List.mem_cons.mp h with rfl | h
          · exact Or.inl rfl
          · rcases ih h with h | ⟨h1, h2⟩
            · exact Or.inl h
            · exact Or.inr ⟨List.mem_cons_of_mem a h1, h2⟩
    · have ha' : isJsSpace a = false := by simpa using ha
      rw [spaceRuns_nonspace ha'] at h
      rcases List.mem_cons.mp h with rfl | h
      · exact Or.inr ⟨List.mem_cons_self _ _, ha'⟩
      · rcases ih h with h | ⟨h1, h2⟩
        · exact Or.inl h
        · exact Or.inr ⟨List.mem_cons_of_mem a h1, h2⟩

theorem spaceRuns_eq_self {l : List Char}
    (h : ∀ c ∈ l, isJsSpace c = false) : spaceRunsToHyphens l = l := by
  induction l with
  | nil => rfl
  | cons a t ih =>
    rw [spaceRuns_nonspace (h a (List.mem_cons_self a t))]
    rw [ih (fun c hc => h c (List.mem_cons_of_mem a hc))]

theorem mem_jsTrim {l : List Char} {c : Char} (h : c ∈ jsTrim l) : c ∈ l := by
  unfold jsTrim at h
  rw [List.mem_reverse] at h
  have h1 := (List.dropWhile_suffix isJsSpace).subset h
  rw [List.mem_reverse] at h1
  exact (List.dropWhile_suffix isJsSpace).subset h1

theorem jsTrim_eq_self {l : List Char}
    (h : ∀ c ∈ l, isJsSpace c = false) : jsTrim l = l := by
  have e1 : l.dropWhile isJsSpace = l := by
    apply dropWhile_eq_self_of_head
    intro a ha
    exact h a (List.mem_of_mem_head? ha)
  have e2 : l.reverse.dropWhile isJsSpace = l.reverse := by
    apply dropWhile_eq_self_of_head
    intro a ha
    exact h a (List.mem_reverse.mp (List.mem_of_mem_head? ha))
  simp [jsTrim, e1, e2]

theorem sanitizeTitle_mem {l : List Char} {c : Char} (h : c ∈ sanitizeTitle l) :
    isJsSpace c = false ∧ isUpperA c = false ∧
    (isWordChar c || isJsSpace c || c == '-') = true := by
  unfold sanitizeTitle at h
  have h1 := mem_jsTrim h
  rcases mem_spaceRuns h1 with rfl | ⟨h2, hsp⟩
  · refine ⟨by decide, by decide, by decide⟩
  · have h3 := List.mem_filter.mp h2
    refine ⟨hsp, ?_, h3.2⟩
    obtain ⟨d, hd, rfl⟩ := List.mem_map.mp h3.1
    exact isUpperA_jsToLower d

theorem sanitizeTitle_idem (l : List Char) :
    sanitizeTitle (sanitizeTitle l) = sanitizeTitle l := by
  have hmem := fun c hc => sanitizeTitle_mem (l := l) (c := c) hc
  conv_lhs => rw [sanitizeTitle]
  have e1 : (sanitizeTitle l).map jsToLower = sanitizeTitle l := by
    rw [List.map_congr_left (g := id) (fun c hc => by
      simp [jsToLower_eq_self_of_not_upper (hmem c hc).2.1])]
    exact List.map_id _
  have e2 : (sanitizeTitle l).filter
      (fun c => isWordChar c || isJsSpace c || c == '-') = sanitizeTitle l :=
    List.filter_eq_self.mpr (fun c hc => (hmem c hc).2.2)
  have e3 : spaceRunsToHyphens (sanitizeTitle l) = sanitizeTitle l :=
    spaceRuns_eq_self (fun c hc => (hmem c hc).1)
  have e4 : jsTrim (sanitizeTitle l) = sanitizeTitle l :=
    jsTrim_eq_self (fun c hc => (hmem c hc).1)
  rw [e1, e2, e3, e4]

/-- C5 counterexample: with a leading space in the title, the code's
`.trim()` (which runs after whitespace was already replaced by hyphens)
is a no-op, so the edge whitespace survives as a hyphen:
`createBranchName` yields `feature/team-123--add-login-flow` where the
claim's algorithm (`specSynthesizeBranchName`, trimming the edges) yields
`feature/team-123-add-login-flow`. -/
theorem C5_counterexample :
    createBranchName "TEAM-123" " Add Login Flow" =
      "feature/team-123--add-login-flow" ∧
    specSynthesizeBranchName "TEAM-123" " Add Login Flow" =
      "feature/team-123-add-login-flow" ∧
    createBranchName "TEAM-123" " Add Login Flow" ≠
      specSynthesizeBranchName "TEAM-123" " Add Login Flow" := by
  refine ⟨by decide, by decide, by decide⟩

/-- C5 amended: branch-name synthesis lowercases the title, strips every
character except word characters, whitespace, and hyphens, and replaces
every whitespace run — including leading and trailing runs — by a single
hyphen (the final trim only removes whitespace and is a no-op); it is
deterministic, idempotent on already-sanitized titles, and
`createBranchName "TEAM-123" "Add Login Flow" = "feature/team-123-add-login-flow"`. -/
theorem C5_branch_synthesis :
    (∀ taskId title : String,
      createBranchName taskId (String.mk (sanitizeTitle title.data)) =
        createBranchName taskId title) ∧
    (∀ l : List Char, sanitizeTitle (sanitizeTitle l) = sanitizeTitle l) ∧
    createBranchName "TEAM-123" "Add Login Flow" =
      "feature/team-123-add-login-flow" := by
  refine ⟨?_, sanitizeTitle_idem, by decide⟩
  intro t s
  unfold createBranchName
  rw [show (String.mk (sanitizeTitle s.data)).data = sanitizeTitle s.data from rfl]
  rw [sanitizeTitle_idem]
/-- C6 (code-bug evidence): with the configured base branch `main` and a
branch that has zero commits not on `origin/main` (but three not on
`origin/development`), `createSampleCommitIfNeeded` creates no
placeholder commit — it counts against the hardcoded
`origin/development`, contradicting its own comment ("commits on this
branch that aren't on the base branch") and the claim. -/
theorem C6_placeholder_commit_wrong_base :
    createSampleCommitIfNeeded devAheadState = false ∧
    devAheadState.aheadOf "main" = some 0 ∧
    devAheadState.aheadOf "development" = some 3 :=
  ⟨rfl, rfl, rfl⟩

/-- Helper: the code-and-exchange tail of the callback handler resolves
a token only from a present, nonempty code whose exchange succeeded. -/
theorem handleCode_token {resp : Option CallbackResponse} {q : CallbackQuery}
    {exchange : String → Except String String} {t : String}
    (h : (handleCallback.handleCode resp q exchange).2 =
      OAuthOutcome.resolvedToken t) :
    ∃ c, q.code = some c ∧ exchange c = Except.ok t := by
  unfold handleCallback.handleCode at h
  cases hc : q.code with
  | none =>
    rw [hc] at h
    simp at h
  | some c =>
    rw [hc] at h
    dsimp only at h
    by_cases hce : c.isEmpty = true
    · rw [if_pos hce] at h
      simp at h
    · rw [if_neg hce] at h
      cases hx : exchange c with
      | ok tok =>
        rw [hx] at h
        simp at h
        exact ⟨c, rfl, by rw [hx, h]⟩
      | error m =>
        rw [hx] at h
        simp at h

/-- C9 counterexample: a `/callback` request whose token exchange fails
(an internal failure) is answered with the 200 success page — not 500 —
because the handler writes the success page before any validation. -/
theorem C9_counterexample :
    handleCallback "st" "/callback"
        { state := some "st", code := some "c", error := none }
        (fun _ => Except.error "Token exchange failed: boom") =
      (some { status := 200, body := oauthSuccessPage },
       OAuthOutcome.rejected "Token exchange failed: boom") ∧
    (200 : Nat) ≠ 500 :=
  ⟨rfl, by decide⟩

/-- C9 amended: every `/callback` request is answered 200 with the HTML
success page (including failing ones; the 500 branch fires only if
handling itself throws); a state mismatch is terminal — the flow rejects
with "Invalid state parameter" — and a token is resolved only when the
echoed state equals the generated one and the exchange succeeded. -/
theorem C9_callback_responses (genState : String) (q : CallbackQuery)
    (exchange : String → Except String String) :
    (handleCallback genState "/callback" q exchange).1 =
      some { status := 200, body := oauthSuccessPage } ∧
    (q.state ≠ some genState →
      (handleCallback genState "/callback" q exchange).2 =
        OAuthOutcome.rejected "Invalid state parameter") ∧
    (∀ t, (handleCallback genState "/callback" q exchange).2 =
        OAuthOutcome.resolvedToken t →
      q.state = some genState ∧
      ∃ c, q.code = some c ∧ exchange c = Except.ok t) := by
  refine ⟨?_, ?_, ?_⟩
  · unfold handleCallback handleCallback.handleCode
    rw [if_pos rfl]
    repeat' split
    all_goals rfl
  · intro hs
    unfold handleCallback
    rw [if_pos rfl, if_pos hs]
  · intro t ht
    unfold handleCallback at ht
    rw [if_pos rfl] at ht
    by_cases hs : q.state = some genState
    · rw [if_neg (by simpa using hs)] at ht
      refine ⟨hs, ?_⟩
      cases he : q.error with
      | some e =>
        rw [he] at ht
        dsimp only at ht
        by_cases hee : e.isEmpty = true
        · rw [if_pos hee] at ht
          exact handleCode_token ht
        · rw [if_neg hee] at ht
          simp at ht
      | none =>
        rw [he] at ht
        dsimp only at ht
        exact handleCode_token ht
    · rw [if_pos hs] at ht
      simp at ht

/-- C9 amended, witness: a mismatched state rejects the flow. -/
theorem C9_callback_responses_witness :
    (handleCallback "abc" "/callback"
        { state := some "zzz", code := some "c", error := none }
        (fun _ => Except.ok "tok")).2 =
      OAuthOutcome.rejected "Invalid state parameter" :=
  (C9_callback_responses "abc"
      { state := some "zzz", code := some "c", error := none }
      (fun _ => Except.ok "tok")).2.1 (by decide)

/-- C10: when the current git branch already equals the resolved target
branch, the branch phase runs only the read-only `git branch
--show-current` — no checkout, fetch, or branch creation — and leaves the
git state unchanged, with the flow proceeding to title composition;
conversely, reconciliation (`createBranch`) runs exactly when the current
branch differs from the target. -/
theorem C10_frame
    (opts : CreatePROptions) (env : PromptEnv) (task : TaskData)
    (assigned : Bool) (baseBranch : String) (git : GitState) (r : FlowResult)
    (h : createPullRequestFlow opts env task assigned baseBranch git =
      Except.ok r) :
    (git.currentBranch = r.branchName →
      r.branchTrace = [GitCmd.showCurrent] ∧ r.gitState = git) ∧
    (git.currentBranch ≠ r.branchName →
      r.branchTrace =
        GitCmd.showCurrent :: (createBranch r.branchName baseBranch git).trace ∧
      r.gitState = (createBranch r.branchName baseBranch git).state) := by
  unfold createPullRequestFlow at h
  dsimp only at h
  repeat' split at h
  all_goals first
    | (simp only [Except.ok.injEq] at h
       subst h
       constructor
       · intro heq
         first
           | exact ⟨rfl, rfl⟩
           | (exfalso; simp_all)
       · intro hne
         first
           | exact ⟨rfl, rfl⟩
           | (exfalso; simp_all))
    | exact absurd h (by simp)

/-- C10 witness: the billing scenario already sits on `ENG-42`. -/
theorem C10_frame_witness :
    billingResult.branchTrace = [GitCmd.showCurrent] ∧
    billingResult.gitState = gitOnEng42 :=
  (C10_frame billingOpts plainEnv taskBilling true "development" gitOnEng42
    billingResult rfl).1 (by decide)
